import Mathlib

/-
Verification development for the Finova repository.

Part A embeds the frontend utility cleanMarkdown
(frontend markdown-stripping helper, src/unnamed/part_001) as executable
functions over lists of characters.  Each JavaScript regex replacement is
translated into a left-to-right scanner that mirrors the regex engine:
a global replace scans the string once, replaces non-overlapping matches,
and advances by one character when a match attempt fails.  Multiline
anchors are modelled with an at-line-start flag.

Part B models the customer segmentation pipeline.  The Python sources
(data_preprocessing.py, clustering_model.py, main.py) are not part of the
source snapshot; only the project README describes them, so those
definitions are modelled from the specification text, as marked in their
doc comments.
-/

namespace Finova

/-- The character class matched by the JavaScript regex class for
whitespace, restricted to its ASCII members (space, tab, newline,
carriage return, vertical tab, form feed). -/
def isWs (c : Char) : Bool :=
  c = ' ' ∨ c = '\t' ∨ c = '\n' ∨ c = '\r' ∨ c = Char.ofNat 11 ∨ c = Char.ofNat 12

/-- Line terminators recognised by JavaScript multiline anchors,
restricted to the ASCII ones. -/
def isNl (c : Char) : Bool :=
  c = '\n' ∨ c = '\r'

/-- The backquote character, used by the code-block regexes. -/
def backquote : Char := Char.ofNat 96

/-- Scanner for `text.replace(/pp/g, '')` where `pp` is a doubled marker
character (the bold markers in cleanMarkdown).  The fuel argument only
bounds recursion; when it runs out the remaining input is returned as is. -/
def pairAux (p : Char) : Nat → List Char → List Char
  | 0, l => l
  | _ + 1, [] => []
  | _ + 1, [c] => [c]
  | f + 1, a :: b :: rest =>
    if a = p ∧ b = p then pairAux p f rest
    else a :: pairAux p f (b :: rest)

/-- Scanner for `text.replace(/p(?!p)/g, '')`: a single marker character is
deleted when not followed by another copy of itself (the italic markers). -/
def singleAux (p : Char) : Nat → List Char → List Char
  | 0, l => l
  | _ + 1, [] => []
  | _ + 1, [c] => if c = p then [] else [c]
  | f + 1, a :: b :: rest =>
    if a = p ∧ ¬ b = p then singleAux p f (b :: rest)
    else a :: singleAux p f (b :: rest)

/-- Scanner for the header rule, a multiline anchored replace of one or
more hash marks followed by whitespace at a line start.  The Boolean flag
records whether the scanner sits at a line start; the greedy trailing
whitespace run may include line terminators, and the flag after a match is
recomputed from the last consumed character. -/
def hdrAux : Nat → Bool → List Char → List Char
  | 0, _, l => l
  | _ + 1, _, [] => []
  | f + 1, ls, c :: rest =>
    if ls ∧ c = '#' then
      let afterHash := rest.dropWhile (fun x => x = '#')
      let ws := afterHash.takeWhile isWs
      if ws = [] then c :: hdrAux f (isNl c) rest
      else hdrAux f (isNl (ws.getLastD c)) (afterHash.dropWhile isWs)
    else c :: hdrAux f (isNl c) rest

/-- Scanner for the blockquote rule: a greater-than sign followed by
whitespace, anchored at a line start. -/
def quoteAux : Nat → Bool → List Char → List Char
  | 0, _, l => l
  | _ + 1, _, [] => []
  | f + 1, ls, c :: rest =>
    if ls ∧ c = '>' then
      let ws := rest.takeWhile isWs
      if ws = [] then c :: quoteAux f (isNl c) rest
      else quoteAux f (isNl (ws.getLastD c)) (rest.dropWhile isWs)
    else c :: quoteAux f (isNl c) rest

/-- Scanner for the image-link rule.  The source regex spells a literal
exclamation mark, a literal question mark, then a bracketed label and a
parenthesised target; the match is replaced by the captured label. -/
def bangAux : Nat → List Char → List Char
  | 0, l => l
  | _ + 1, [] => []
  | f + 1, c :: rest =>
    if c = '!' then
      match rest with
      | '?' :: '[' :: r2 =>
        let cap := r2.takeWhile (fun x => ¬ x = ']')
        match r2.dropWhile (fun x => ¬ x = ']') with
        | ']' :: '(' :: r3 =>
          match r3.dropWhile (fun x => ¬ x = ')') with
          | ')' :: r4 => cap ++ bangAux f r4
          | _ => c :: bangAux f rest
        | _ => c :: bangAux f rest
      | _ => c :: bangAux f rest
    else c :: bangAux f rest

/-- Scanner for the link rule: a bracketed label followed by a
parenthesised target is replaced by the captured label. -/
def linkAux : Nat → List Char → List Char
  | 0, l => l
  | _ + 1, [] => []
  | f + 1, c :: rest =>
    if c = '[' then
      let cap := rest.takeWhile (fun x => ¬ x = ']')
      match rest.dropWhile (fun x => ¬ x = ']') with
      | ']' :: '(' :: r3 =>
        match r3.dropWhile (fun x => ¬ x = ')') with
        | ')' :: r4 => cap ++ linkAux f r4
        | _ => c :: linkAux f rest
      | _ => c :: linkAux f rest
    else c :: linkAux f rest

/-- Scanner for the triple-backquote rule (code fences). -/
def tickAux : Nat → List Char → List Char
  | 0, l => l
  | _ + 1, [] => []
  | f + 1, a :: rest =>
    if a = backquote ∧ rest.take 2 = [backquote, backquote] then
      tickAux f (rest.drop 2)
    else a :: tickAux f rest

/-- Scanner for the list-bullet rule: optional whitespace, one bullet
character (dash, star or plus), then whitespace, anchored at a line
start; the whole match is deleted. -/
def bulletAux : Nat → Bool → List Char → List Char
  | 0, _, l => l
  | _ + 1, _, [] => []
  | f + 1, ls, c :: rest =>
    if ls then
      match (c :: rest).dropWhile isWs with
      | b :: m2 =>
        if b = '-' ∨ b = '*' ∨ b = '+' then
          let ws2 := m2.takeWhile isWs
          if ws2 = [] then c :: bulletAux f (isNl c) rest
          else bulletAux f (isNl (ws2.getLastD b)) (m2.dropWhile isWs)
        else c :: bulletAux f (isNl c) rest
      | [] => c :: bulletAux f (isNl c) rest
    else c :: bulletAux f (isNl c) rest

/-- Splits a whitespace run at its last line terminator: returns the part
strictly before that terminator and the remainder starting with it, or
nothing when the run has no line terminator. -/
def lastNlSplit : List Char → Option (List Char × List Char)
  | [] => none
  | c :: rest =>
    match lastNlSplit rest with
    | some (pre, kept) => some (c :: pre, kept)
    | none => if isNl c then some ([], c :: rest) else none

/-- Scanner for the horizontal-rule deletions: optional whitespace, three
or more copies of the rule character, then greedy whitespace up to a line
end.  With a greedy trailing whitespace run, the regex engine backtracks
to the last line terminator inside the run (or consumes everything when
the run reaches the end of the input). -/
def hrAux (d : Char) : Nat → Bool → List Char → List Char
  | 0, _, l => l
  | _ + 1, _, [] => []
  | f + 1, ls, c :: rest =>
    if ls then
      let m1 := (c :: rest).dropWhile isWs
      let ds := m1.takeWhile (fun x => x = d)
      if 3 ≤ ds.length then
        let m2 := m1.dropWhile (fun x => x = d)
        let ws2 := m2.takeWhile isWs
        let m3 := m2.dropWhile isWs
        if m3.isEmpty then []
        else
          match lastNlSplit ws2 with
          | some (pre, kept) => hrAux d f (isNl (pre.getLastD d)) (kept ++ m3)
          | none => c :: hrAux d f (isNl c) rest
      else c :: hrAux d f (isNl c) rest
    else c :: hrAux d f (isNl c) rest

/-- Scanner for the whitespace-collapsing rule: every run of two or more
whitespace characters becomes a single space. -/
def wsAux : Nat → List Char → List Char
  | 0, l => l
  | _ + 1, [] => []
  | f + 1, c :: rest =>
    if isWs c then
      if (rest.takeWhile isWs).isEmpty then c :: wsAux f rest
      else ' ' :: wsAux f (rest.dropWhile isWs)
    else c :: wsAux f rest

/-- The final trim call of cleanMarkdown: leading and trailing whitespace
is removed. -/
def trimWs (l : List Char) : List Char :=
  ((l.dropWhile isWs).reverse.dropWhile isWs).reverse

/-- The string-processing body of cleanMarkdown, the fourteen replacement
steps applied in source order followed by trim.  One shared fuel bound —
the input length plus one — never runs out, because every scanner step
consumes at least one input character and no replacement step lengthens
the string. -/
def cmList (l : List Char) : List Char :=
  let n := l.length + 1
  let s1 := pairAux '*' n l
  let s2 := pairAux '_' n s1
  let s3 := singleAux '*' n s2
  let s4 := singleAux '_' n s3
  let s5 := hdrAux n true s4
  let s6 := quoteAux n true s5
  let s7 := bangAux n s6
  let s8 := linkAux n s7
  let s9 := tickAux n s8
  let s9b := s9.filter (fun x => ¬ x = backquote)
  let s10 := bulletAux n true s9b
  let s11 := hrAux '-' n true s10
  let s12 := hrAux '=' n true s11
  let s13 := wsAux n s12
  trimWs s13

/-- cleanMarkdown on a string value that passed the guard. -/
def cleanMarkdownS (s : String) : String := String.mk (cmList s.data)

/-- A JavaScript value as far as cleanMarkdown can observe it: null,
undefined, a boolean, a number or a string. -/
inductive JsValue where
  | jsNull
  | jsUndefined
  | jsBool (b : Bool)
  | jsNumber (n : Int)
  | jsString (s : String)
deriving DecidableEq

/-- JavaScript truthiness of a JsValue (zero, the empty string, false,
null and undefined are falsy). -/
def truthy : JsValue → Bool
  | .jsNull => false
  | .jsUndefined => false
  | .jsBool b => b
  | .jsNumber n => decide (¬ n = 0)
  | .jsString s => decide (¬ s = "")

/-- Whether `typeof v` is the string type. -/
def isStr : JsValue → Bool
  | .jsString _ => true
  | _ => false

/-- The full cleanMarkdown function including its guard
`if (!text || typeof text !== 'string') return text`. -/
def cleanMarkdownJs (v : JsValue) : JsValue :=
  if !truthy v || !isStr v then v
  else
    match v with
    | .jsString s => .jsString (cleanMarkdownS s)
    | w => w

/-- A character that no replacement step of cleanMarkdown can react to:
not one of the markdown marker characters and not whitespace other than a
plain space. -/
def inertChar (c : Char) : Bool :=
  !(['*', '_', '#', '>', '!', '[', '-', '+', '='].contains c) &&
    !(c = backquote) && (!isWs c || c = ' ')

/-- No two adjacent whitespace characters. -/
def noTwoWs : List Char → Bool
  | a :: b :: rest => (!(isWs a && isWs b)) && noTwoWs (b :: rest)
  | _ => true

/-- A plain string: every character inert, no two adjacent whitespace
characters, and no leading or trailing whitespace. -/
def plainList (l : List Char) : Bool :=
  l.all inertChar && noTwoWs l && !isWs (l.headD 'x') && !isWs (l.getLastD 'x')

/-- Modelled from the spec: the fixed category taxonomy of a transaction
(the data-preprocessing sources are absent from the snapshot). -/
inductive Cat where
  | essential
  | discretionary
  | fixed
  | investment
  | income
  | other
deriving DecidableEq

/-- Modelled from the spec: one validated transaction, reduced to the
fields the Feature Extractor reads — the calendar month of its date, its
signed amount (inflows positive, outflows negative) and its category. -/
structure Tx where
  month : Nat
  amount : ℚ
  category : Cat
deriving DecidableEq

/-- Arithmetic mean of a list of rationals (zero on the empty list). -/
def mean (l : List ℚ) : ℚ := l.sum / (l.length : ℚ)

/-- Population variance of a list of rationals. -/
def popVariance (l : List ℚ) : ℚ :=
  (l.map (fun x => (x - mean l) ^ 2)).sum / (l.length : ℚ)

/-- The distinct calendar months present in a transaction list, in order
of first appearance; months with no transactions are not represented. -/
def monthsOf (txs : List Tx) : List Nat := (txs.map (·.month)).dedup

/-- Signed sum of the amounts of one category in one month. -/
def monthCatSum (txs : List Tx) (m : Nat) (g : Cat) : ℚ :=
  ((txs.filter (fun t => decide (t.month = m) && decide (t.category = g))).map
    (·.amount)).sum

/-- Monthly income: the summed signed amounts of income-category
transactions of one month. -/
def monthlyIncome (txs : List Tx) (m : Nat) : ℚ := monthCatSum txs m .income

/-- Modelled from the spec: monthly net spend — the summed signed amounts
of all non-income transactions of one month, negated so that net outflow
is positive. -/
def monthlyNetSpend (txs : List Tx) (m : Nat) : ℚ :=
  -(((txs.filter (fun t => decide (t.month = m) && decide (¬ t.category = .income))).map
      (·.amount)).sum)

/-- Monthly total net spend for every month present, in month order. -/
def monthlyNetSpends (txs : List Tx) : List ℚ :=
  (monthsOf txs).map (monthlyNetSpend txs)

/-- Average monthly income across the months present (months with zero
transactions are excluded from the average, not treated as zero). -/
def avgMonthlyIncome (txs : List Tx) : ℚ :=
  mean ((monthsOf txs).map (monthlyIncome txs))

/-- Average monthly net spend across the months present. -/
def avgMonthlySpend (txs : List Tx) : ℚ := mean (monthlyNetSpends txs)

/-- Average monthly net spend of one category group across the months
present, with outflow positive. -/
def avgCatSpend (txs : List Tx) (g : Cat) : ℚ :=
  mean ((monthsOf txs).map (fun m => -(monthCatSum txs m g)))

/-- Real-valued mean of a list of rationals, used to state volatility. -/
noncomputable def meanR (l : List ℚ) : ℝ :=
  (l.map (Rat.cast : ℚ → ℝ)).sum / (l.length : ℝ)

/-- Real-valued population variance of a list of rationals. -/
noncomputable def popVarR (l : List ℚ) : ℝ :=
  (l.map (fun q => (Rat.cast q - meanR l) ^ 2)).sum / (l.length : ℝ)

/-- Population standard deviation of a list of rationals. -/
noncomputable def popStdDev (l : List ℚ) : ℝ := Real.sqrt (popVarR l)

/-- Modelled from the spec: the derived numeric summary of one customer.
Monetary fields are monthly averages in the same currency unit; the
savings rate is a null sentinel when average income is nonpositive and
the volatility is a null sentinel when fewer than two months of data are
present. -/
structure CustomerFeatureVector where
  avgMonthlyIncome : ℚ
  avgEssential : ℚ
  avgDiscretionary : ℚ
  avgFixedSpend : ℚ
  avgInvestment : ℚ
  avgOtherSpend : ℚ
  savingsRate : Option ℚ
  volatility : Option ℝ
  txCount : Nat
  avgTxSize : ℚ

/-- Modelled from the spec: the Feature Extractor, absent from the source
snapshot.  Transactions of one customer are partitioned by calendar
month, signed amounts are summed per category group per month and
averaged across the months present; the savings rate is
(income - spend) / income guarded by the nonpositive-income sentinel, and
the volatility is the population standard deviation of monthly total
spend divided by the mean monthly spend, guarded by the
fewer-than-two-months sentinel. -/
noncomputable def extract (txs : List Tx) : CustomerFeatureVector :=
  let inc := avgMonthlyIncome txs
  let spend := avgMonthlySpend txs
  { avgMonthlyIncome := inc
    avgEssential := avgCatSpend txs .essential
    avgDiscretionary := avgCatSpend txs .discretionary
    avgFixedSpend := avgCatSpend txs .fixed
    avgInvestment := avgCatSpend txs .investment
    avgOtherSpend := avgCatSpend txs .other
    savingsRate := if inc ≤ 0 then none else some ((inc - spend) / inc)
    volatility :=
      if (monthsOf txs).length < 2 then none
      else some (Real.sqrt ((popVariance (monthlyNetSpends txs) : ℚ) : ℝ) /
                  ((mean (monthlyNetSpends txs) : ℚ) : ℝ))
    txCount := txs.length
    avgTxSize := mean (txs.map (fun t => |t.amount|)) }

/-- The numeric feature columns handed to the Segmenter, in a fixed
order: income, the four named category groups, the savings rate with the
null sentinel imputed as zero, the transaction count and the average
transaction size.  The volatility column is reported but not clustered
on, since the spec fixes no imputation for its null sentinel. -/
noncomputable def toFeatureList (v : CustomerFeatureVector) : List ℚ :=
  [v.avgMonthlyIncome, v.avgEssential, v.avgDiscretionary, v.avgFixedSpend,
   v.avgInvestment, v.savingsRate.getD 0, (v.txCount : ℚ), v.avgTxSize]

/-- Income component of a feature vector or centroid. -/
def fIncome (c : List ℚ) : ℚ := c.getD 0 0

/-- Discretionary-spend component of a feature vector or centroid. -/
def fDisc (c : List ℚ) : ℚ := c.getD 2 0

/-- Savings-rate component of a feature vector or centroid. -/
def fSavings (c : List ℚ) : ℚ := c.getD 5 0

/-- Modelled from the spec: the pipeline error taxonomy. -/
inductive PipeError where
  | invalidData
  | insufficientData
  | degenerateInput
  | computation
deriving DecidableEq

/-- Modelled from the spec: thresholds of the persona rule table,
configuration rather than hard logic.  Defaults follow the README
(savings rate above thirty percent marks a Super Saver) with the
remaining hand-tuned thresholds exposed as tunable parameters. -/
structure RuleConfig where
  savingsHigh : ℚ
  savingsMid : ℚ
  discLow : ℚ
  discHigh : ℚ
  incomeHigh : ℚ
deriving DecidableEq

/-- Default thresholds of the persona rule table. -/
def defaultRules : RuleConfig :=
  { savingsHigh := 3 / 10
    savingsMid := 15 / 100
    discLow := 300
    discHigh := 800
    incomeHigh := 4000 }

/-- Modelled from the spec: Segmenter configuration — the fixed cluster
count, the fixed random seed, the iteration budget of the fit and the
persona rule thresholds. -/
structure SegConfig where
  k : Nat
  seed : Nat
  maxIter : Nat
  rules : RuleConfig
deriving DecidableEq

/-- Modelled from the spec and README: the persona label of a cluster
centroid in original units, as the implicit if/elif chain against the
threshold configuration; the final branch is the default label. -/
def personaChain (rc : RuleConfig) (c : List ℚ) : String :=
  if rc.savingsHigh < fSavings c then "Super Saver"
  else if rc.savingsMid < fSavings c ∧ fDisc c < rc.discLow then "Prudent Planner"
  else if rc.incomeHigh < fIncome c ∧ rc.discHigh < fDisc c then "High Earner Spender"
  else if rc.discHigh < fDisc c then "Lifestyle Enthusiast"
  else "Budget Conscious"

/-- One tagged rule of the persona rule table. -/
structure PersonaRule where
  pred : List ℚ → Bool
  label : String

/-- The persona rule table as an ordered list of (predicate, label)
pairs, evaluated first match wins. -/
def ruleTable (rc : RuleConfig) : List PersonaRule :=
  [⟨fun c => decide (rc.savingsHigh < fSavings c), "Super Saver"⟩,
   ⟨fun c => decide (rc.savingsMid < fSavings c ∧ fDisc c < rc.discLow), "Prudent Planner"⟩,
   ⟨fun c => decide (rc.incomeHigh < fIncome c ∧ rc.discHigh < fDisc c), "High Earner Spender"⟩,
   ⟨fun c => decide (rc.discHigh < fDisc c), "Lifestyle Enthusiast"⟩]

/-- First-match-wins evaluation of the persona rule table, with the
default label when no rule matches. -/
def firstMatchLabel (rc : RuleConfig) (c : List ℚ) : String :=
  match (ruleTable rc).find? (fun r => r.pred c) with
  | some r => r.label
  | none => "Budget Conscious"

/-- Values of one feature column across the population. -/
def colVals (pop : List (List ℚ)) (j : Nat) : List ℚ :=
  pop.map (fun v => v.getD j 0)

/-- Modelled from the spec: standardization weights.  Standardizing a
column to zero mean and unit variance rescales squared distances along it
by the reciprocal of its variance, and a zero-variance column is left as
zero, which is weight zero; the fit below therefore runs on raw vectors
under these weights, which is exactly the k-means geometry of the
standardized matrix while staying in rational arithmetic. -/
def stdWeights (pop : List (List ℚ)) (d : Nat) : List ℚ :=
  (List.range d).map (fun j =>
    let v := popVariance (colVals pop j)
    if v = 0 then 0 else 1 / v)

/-- Weighted squared distance between two vectors, the squared Euclidean
distance of the standardized space. -/
def wdist2 (w x c : List ℚ) : ℚ :=
  ((List.range w.length).map (fun j =>
    w.getD j 0 * (x.getD j 0 - c.getD j 0) ^ 2)).sum

/-- Index of the least element of a list of distances; ties break toward
the smaller index, keeping assignment deterministic. -/
def argminIdx (l : List ℚ) : Nat :=
  (l.foldl
    (fun (st : Nat × Nat × ℚ) dd =>
      if dd < st.2.2 then (st.2.1, st.2.1 + 1, dd) else (st.1, st.2.1 + 1, st.2.2))
    (0, 0, l.headD 0)).1

/-- Cluster index assigned to each vector: the nearest centroid under the
standardized-space distance. -/
def assignAll (w : List ℚ) (cents : List (List ℚ)) (pop : List (List ℚ)) : List Nat :=
  pop.map (fun x => argminIdx (cents.map (fun c => wdist2 w x c)))

/-- Componentwise mean of a cluster's member vectors. -/
def vecMean (vs : List (List ℚ)) (d : Nat) : List ℚ :=
  (List.range d).map (fun i => mean (vs.map (fun v => v.getD i 0)))

/-- One Lloyd update: centroids move to the mean of their assigned
members; a centroid with no members stays in place. -/
def updateCentroids (pop : List (List ℚ)) (asg : List Nat) (cents : List (List ℚ))
    (d : Nat) : List (List ℚ) :=
  (List.range cents.length).map (fun j =>
    let members := ((pop.zip asg).filter (fun p => p.2 == j)).map (·.1)
    if members.isEmpty then cents.getD j (List.replicate d 0)
    else vecMean members d)

/-- Lloyd iteration with a fixed iteration budget. -/
def lloyd (w : List ℚ) (pop : List (List ℚ)) (d : Nat) :
    Nat → List (List ℚ) → List (List ℚ)
  | 0, cents => cents
  | n + 1, cents => lloyd w pop d n (updateCentroids pop (assignAll w cents pop) cents d)

/-- Modelled from the spec: deterministic seed-derived initial centroids,
the k data points at consecutive seed-offset indices. -/
def initCents (seed k n : Nat) (pop : List (List ℚ)) : List (List ℚ) :=
  (List.range k).map (fun i => pop.getD ((seed + i) % n) [])

/-- One cluster assignment: the customer's population index, its cluster
index, the persona label of that cluster and the squared
standardized-space distance to its centroid (the confidence proxy, which
determines the Euclidean distance monotonically). -/
structure ClusterAssignment where
  customer : Nat
  cluster : Nat
  persona : String
  distSq : ℚ
deriving DecidableEq

/-- The Segmenter output: one assignment per customer, the fitted
centroids in original units and the persona label of each cluster. -/
structure SegResult where
  assignments : List ClusterAssignment
  centroids : List (List ℚ)
  personas : List String
deriving DecidableEq

/-- Whether every feature vector of the population is identical. -/
def allIdentical (pop : List (List ℚ)) : Bool :=
  match pop with
  | [] => true
  | x :: rest => rest.all (fun y => decide (y = x))

/-- Modelled from the spec: the k-means fit on the guarded population —
seed-derived initial centroids, a fixed budget of Lloyd updates in the
standardized geometry, final assignments, centroids in original units and
the persona label of each centroid via the rule chain. -/
def fit (cfg : SegConfig) (pop : List (List ℚ)) : SegResult :=
  let d := (pop.headD []).length
  let w := stdWeights pop d
  let cents := lloyd w pop d cfg.maxIter (initCents cfg.seed cfg.k pop.length pop)
  let asg := assignAll w cents pop
  let personas := cents.map (personaChain cfg.rules)
  { assignments :=
      (pop.zip asg).enum.map (fun p =>
        { customer := p.1
          cluster := p.2.2
          persona := personas.getD p.2.2 "Budget Conscious"
          distSq := wdist2 w p.2.1 (cents.getD p.2.2 []) })
    centroids := cents
    personas := personas }

/-- Modelled from the spec: the Segmenter — population preconditions are
checked first (fewer customers than the cluster count, then an
all-identical population), and only then is the model fit. -/
def segment (cfg : SegConfig) (pop : List (List ℚ)) : Except PipeError SegResult :=
  if pop.length < cfg.k then .error .insufficientData
  else if allIdentical pop then .error .degenerateInput
  else .ok (fit cfg pop)

/-- Modelled from the spec: one raw transaction as handed over by the
data-access layer; a non-numeric amount or unparseable date surfaces as a
missing field, and the category arrives as free text. -/
structure RawTx where
  month : Option Nat
  amount : Option ℚ
  category : String
deriving DecidableEq

/-- Modelled from the spec: category parsing — the fixed taxonomy by
name, with unknown categories mapped to other rather than failing. -/
def parseCat (s : String) : Cat :=
  if s = "essential" then .essential
  else if s = "discretionary" then .discretionary
  else if s = "fixed" then .fixed
  else if s = "investment" then .investment
  else if s = "income" then .income
  else .other

/-- Modelled from the spec: input validation of one transaction — a
non-numeric amount or unparseable date fails with the invalid-data
error. -/
def validateTx (r : RawTx) : Except PipeError Tx :=
  match r.amount, r.month with
  | some a, some m => .ok { month := m, amount := a, category := parseCat r.category }
  | _, _ => .error .invalidData

/-- Sequences a fallible step over a list, stopping at the first
error — the all-or-nothing composition of the pipeline. -/
def seqE (f : α → Except PipeError β) : List α → Except PipeError (List β)
  | [] => .ok []
  | a :: rest =>
    match f a with
    | .error e => .error e
    | .ok b =>
      match seqE f rest with
      | .error e => .error e
      | .ok bs => .ok (b :: bs)

/-- The Feature Extractor with validation: every raw transaction of the
customer is validated, then the feature vector is derived. -/
noncomputable def extractE (rs : List RawTx) : Except PipeError CustomerFeatureVector :=
  match seqE validateTx rs with
  | .error e => .error e
  | .ok txs => .ok (extract txs)

/-- Modelled from the spec: the whole pipeline as a pure function from a
per-customer transaction snapshot to an assignment snapshot — feature
extraction per customer, then one segmentation of the population; any
stage error aborts the run. -/
noncomputable def pipeline (cfg : SegConfig) (css : List (List RawTx)) :
    Except PipeError SegResult :=
  match seqE extractE css with
  | .error e => .error e
  | .ok vs => segment cfg (vs.map toFeatureList)

/-- Some stage of the pipeline fails on this input: either the Feature
Extractor rejects some customer's transactions, or extraction succeeds
and the Segmenter rejects the population. -/
def stageFails (cfg : SegConfig) (css : List (List RawTx)) : Prop :=
  (∃ c ∈ css, ∃ e, extractE c = Except.error e) ∨
  (∃ vs, seqE extractE css = Except.ok vs ∧
    ∃ e, segment cfg (vs.map toFeatureList) = Except.error e)

instance {α β : Type} [DecidableEq α] [DecidableEq β] : DecidableEq (Except α β) :=
  fun a b =>
    match a, b with
    | .error e, .error e2 => if h : e = e2 then isTrue (by rw [h]) else isFalse (by simp [h])
    | .ok r, .ok r2 => if h : r = r2 then isTrue (by rw [h]) else isFalse (by simp [h])
    | .error _, .ok _ => isFalse (by simp)
    | .ok _, .error _ => isFalse (by simp)

/-- A two-cluster Segmenter configuration used as a concrete input. -/
def cfgW2 : SegConfig := { k := 2, seed := 0, maxIter := 1, rules := defaultRules }

/-- The default five-cluster Segmenter configuration of the README. -/
def cfgW5 : SegConfig := { k := 5, seed := 42, maxIter := 10, rules := defaultRules }

/-- A one-cluster Segmenter configuration used as a concrete input. -/
def cfgW1 : SegConfig := { k := 1, seed := 0, maxIter := 0, rules := defaultRules }

/-- A concrete customer with no income transactions. -/
def exIncomeless : List Tx := [{ month := 1, amount := -50, category := .essential }]

/-- A concrete customer whose refund in a spend category exceeds the
month's spending, so monthly net spend is negative. -/
def exRefund : List Tx :=
  [{ month := 1, amount := 100, category := .income },
   { month := 1, amount := 50, category := .discretionary }]

/-- A concrete customer with positive income and ordinary spending. -/
def exSaver : List Tx :=
  [{ month := 1, amount := 100, category := .income },
   { month := 1, amount := -40, category := .essential }]

/-- A concrete customer with two months of history. -/
def exTwoMonths : List Tx :=
  [{ month := 1, amount := -10, category := .essential },
   { month := 2, amount := -20, category := .essential }]

/-- A concrete one-customer population whose single transaction has an
unparseable date. -/
def cssBadDate : List (List RawTx) :=
  [[{ month := none, amount := some 1, category := "essential" }]]

/-- A concrete two-customer population of distinct one-column vectors. -/
def popW : List (List ℚ) := [[0], [4]]

end Finova

unseal Rat.add Rat.mul Rat.inv Rat.sub

namespace Finova

/-- Characters of a list of inert characters differ from any non-inert
character. -/
theorem ne_of_inert (l : List Char) (h : l.all inertChar = true) (p : Char)
    (hp : inertChar p = false) : ∀ c ∈ l, c ≠ p := by
  intro c hc he
  subst he
  have hct := List.all_eq_true.mp h c hc
  rw [hp] at hct
  cases hct

/-- The doubled-marker scanner is the identity on marker-free input. -/
theorem pairAux_id (p : Char) :
    ∀ (f : Nat) (l : List Char), (∀ c ∈ l, c ≠ p) → pairAux p f l = l := by
  intro f
  induction f with
  | zero => intro l _; rfl
  | succ f ih =>
    intro l h
    match l with
    | [] => rfl
    | [c] => rfl
    | a :: b :: rest =>
      have ha : a ≠ p := h a (by simp)
      have hrest : ∀ c ∈ b :: rest, c ≠ p := fun c hc => h c (List.mem_cons_of_mem a hc)
      simp only [pairAux]
      rw [if_neg (fun hab => ha hab.1), ih (b :: rest) hrest]

/-- The single-marker scanner is the identity on marker-free input. -/
theorem singleAux_id (p : Char) :
    ∀ (f : Nat) (l : List Char), (∀ c ∈ l, c ≠ p) → singleAux p f l = l := by
  intro f
  induction f with
  | zero => intro l _; rfl
  | succ f ih =>
    intro l h
    match l with
    | [] => rfl
    | [c] =>
      have hc : c ≠ p := h c (by simp)
      simp only [singleAux]
      rw [if_neg hc]
    | a :: b :: rest =>
      have ha : a ≠ p := h a (by simp)
      have hrest : ∀ c ∈ b :: rest, c ≠ p := fun c hc => h c (List.mem_cons_of_mem a hc)
      simp only [singleAux]
      rw [if_neg (fun hab => ha hab.1), ih (b :: rest) hrest]

/-- The header scanner is the identity on hash-free input. -/
theorem hdrAux_id :
    ∀ (f : Nat) (ls : Bool) (l : List Char), (∀ c ∈ l, c ≠ '#') → hdrAux f ls l = l := by
  intro f
  induction f with
  | zero => intro ls l _; rfl
  | succ f ih =>
    intro ls l h
    match l with
    | [] => rfl
    | c :: rest =>
      have hc : c ≠ '#' := h c (by simp)
      have hrest : ∀ x ∈ rest, x ≠ '#' := fun x hx => h x (List.mem_cons_of_mem c hx)
      simp only [hdrAux]
      rw [if_neg (fun hab => hc hab.2), ih (isNl c) rest hrest]

/-- The blockquote scanner is the identity when no greater-than sign is
present. -/
theorem quoteAux_id :
    ∀ (f : Nat) (ls : Bool) (l : List Char), (∀ c ∈ l, c ≠ '>') → quoteAux f ls l = l := by
  intro f
  induction f with
  | zero => intro ls l _; rfl
  | succ f ih =>
    intro ls l h
    match l with
    | [] => rfl
    | c :: rest =>
      have hc : c ≠ '>' := h c (by simp)
      have hrest : ∀ x ∈ rest, x ≠ '>' := fun x hx => h x (List.mem_cons_of_mem c hx)
      simp only [quoteAux]
      rw [if_neg (fun hab => hc hab.2), ih (isNl c) rest hrest]

/-- The image-link scanner is the identity when no exclamation mark is
present. -/
theorem bangAux_id :
    ∀ (f : Nat) (l : List Char), (∀ c ∈ l, c ≠ '!') → bangAux f l = l := by
  intro f
  induction f with
  | zero => intro l _; rfl
  | succ f ih =>
    intro l h
    match l with
    | [] => rfl
    | c :: rest =>
      have hc : c ≠ '!' := h c (by simp)
      have hrest : ∀ x ∈ rest, x ≠ '!' := fun x hx => h x (List.mem_cons_of_mem c hx)
      simp only [bangAux]
      rw [if_neg hc, ih rest hrest]

/-- The link scanner is the identity when no opening bracket is
present. -/
theorem linkAux_id :
    ∀ (f : Nat) (l : List Char), (∀ c ∈ l, c ≠ '[') → linkAux f l = l := by
  intro f
  induction f with
  | zero => intro l _; rfl
  | succ f ih =>
    intro l h
    match l with
    | [] => rfl
    | c :: rest =>
      have hc : c ≠ '[' := h c (by simp)
      have hrest : ∀ x ∈ rest, x ≠ '[' := fun x hx => h x (List.mem_cons_of_mem c hx)
      simp only [linkAux]
      rw [if_neg hc, ih rest hrest]

/-- The code-fence scanner is the identity on backquote-free input. -/
theorem tickAux_id :
    ∀ (f : Nat) (l : List Char), (∀ c ∈ l, c ≠ backquote) → tickAux f l = l := by
  intro f
  induction f with
  | zero => intro l _; rfl
  | succ f ih =>
    intro l h
    match l with
    | [] => rfl
    | c :: rest =>
      have hc : c ≠ backquote := h c (by simp)
      have hrest : ∀ x ∈ rest, x ≠ backquote := fun x hx => h x (List.mem_cons_of_mem c hx)
      simp only [tickAux]
      rw [if_neg (fun hab => hc hab.1), ih rest hrest]

/-- The adjacent-whitespace-free property is inherited by tails. -/
theorem noTwoWs_tail (a : Char) (l : List Char) (h : noTwoWs (a :: l) = true) :
    noTwoWs l = true := by
  match l with
  | [] => rfl
  | b :: rest =>
    simp only [noTwoWs, Bool.and_eq_true] at h
    exact h.2

/-- The list-bullet scanner is the identity on bullet-free input. -/
theorem bulletAux_id :
    ∀ (f : Nat) (ls : Bool) (l : List Char),
      (∀ c ∈ l, c ≠ '-' ∧ c ≠ '*' ∧ c ≠ '+') → bulletAux f ls l = l := by
  intro f
  induction f with
  | zero => intro ls l _; rfl
  | succ f ih =>
    intro ls l h
    match l with
    | [] => rfl
    | c :: rest =>
      have hrest : ∀ x ∈ rest, x ≠ '-' ∧ x ≠ '*' ∧ x ≠ '+' :=
        fun x hx => h x (List.mem_cons_of_mem c hx)
      simp only [bulletAux]
      cases ls with
      | false =>
        rw [if_neg (by simp), ih (isNl c) rest hrest]
      | true =>
        rw [if_pos rfl]
        cases hm : (c :: rest).dropWhile isWs with
        | nil =>
          simp only [hm]
          rw [ih (isNl c) rest hrest]
        | cons b m2 =>
          have hb : b ∈ c :: rest :=
            (List.dropWhile_sublist isWs).subset (by rw [hm]; exact List.mem_cons_self b m2)
          have hbne := h b hb
          simp only [hm]
          rw [if_neg (by rintro (hx | hx | hx) <;> [exact hbne.1 hx; exact hbne.2.1 hx;
                exact hbne.2.2 hx]),
            ih (isNl c) rest hrest]

/-- The horizontal-rule scanner is the identity when its rule character
is absent. -/
theorem hrAux_id (d : Char) :
    ∀ (f : Nat) (ls : Bool) (l : List Char), (∀ c ∈ l, c ≠ d) → hrAux d f ls l = l := by
  intro f
  induction f with
  | zero => intro ls l _; rfl
  | succ f ih =>
    intro ls l h
    match l with
    | [] => rfl
    | c :: rest =>
      have hrest : ∀ x ∈ rest, x ≠ d := fun x hx => h x (List.mem_cons_of_mem c hx)
      simp only [hrAux]
      cases ls with
      | false =>
        rw [if_neg (by simp), ih (isNl c) rest hrest]
      | true =>
        rw [if_pos rfl]
        have hds : ((c :: rest).dropWhile isWs).takeWhile (fun x => x = d) = [] := by
          cases hm : (c :: rest).dropWhile isWs with
          | nil => rfl
          | cons b m2 =>
            have hb : b ∈ c :: rest :=
              (List.dropWhile_sublist isWs).subset (by rw [hm]; exact List.mem_cons_self b m2)
            simp [List.takeWhile_cons, h b hb]
        simp only [hds, List.length_nil]
        rw [if_neg (by omega), ih (isNl c) rest hrest]

/-- The whitespace-collapsing scanner is the identity when no two
adjacent characters are both whitespace. -/
theorem wsAux_id :
    ∀ (f : Nat) (l : List Char), noTwoWs l = true → wsAux f l = l := by
  intro f
  induction f with
  | zero => intro l _; rfl
  | succ f ih =>
    intro l h
    match l with
    | [] => rfl
    | c :: rest =>
      have htl : noTwoWs rest = true := noTwoWs_tail c rest h
      simp only [wsAux]
      by_cases hc : isWs c = true
      · rw [if_pos hc]
        have hrun : (rest.takeWhile isWs).isEmpty = true := by
          cases rest with
          | nil => rfl
          | cons b m =>
            simp only [noTwoWs, Bool.and_eq_true] at h
            have hb : isWs b = false := by
              have h1 := h.1
              rw [Bool.not_eq_true', Bool.and_eq_false_iff] at h1
              rcases h1 with h1 | h1
              · rw [hc] at h1; cases h1
              · exact h1
            simp [List.takeWhile_cons, hb]
        rw [if_pos hrun, ih rest htl]
      · rw [if_neg hc, ih rest htl]

/-- The final trim is the identity without leading or trailing
whitespace. -/
theorem trimWs_id (l : List Char) (h1 : isWs (l.headD 'x') = false)
    (h2 : isWs (l.getLastD 'x') = false) : trimWs l = l := by
  have hd : l.dropWhile isWs = l := by
    cases l with
    | nil => rfl
    | cons a t =>
      simp only [List.headD_cons] at h1
      rw [List.dropWhile_cons, if_neg (by simp [h1])]
  have hrev : l.reverse.headD 'x' = l.getLastD 'x' := by
    rw [List.headD_eq_head?, List.head?_reverse, List.getLastD_eq_getLast?]
  have h2r : isWs (l.reverse.headD 'x') = false := by rw [hrev]; exact h2
  have hr : l.reverse.dropWhile isWs = l.reverse := by
    cases hx : l.reverse with
    | nil => rfl
    | cons a t =>
      rw [hx] at h2r
      simp only [List.headD_cons] at h2r
      rw [List.dropWhile_cons, if_neg (by simp [h2r])]
  unfold trimWs
  rw [hd, hr, List.reverse_reverse]

/-- A plain string is a fixed point of the cleanMarkdown string body:
every replacement step leaves it unchanged. -/
theorem cmList_fixed (l : List Char) (h : plainList l = true) : cmList l = l := by
  simp only [plainList, Bool.and_eq_true] at h
  obtain ⟨⟨⟨hall, htwo⟩, hhd0⟩, hlast0⟩ := h
  have hhd : isWs (l.headD 'x') = false := by simpa using hhd0
  have hlast : isWs (l.getLastD 'x') = false := by simpa using hlast0
  have hstar : ∀ c ∈ l, c ≠ '*' := ne_of_inert l hall '*' (by decide)
  have hund : ∀ c ∈ l, c ≠ '_' := ne_of_inert l hall '_' (by decide)
  have hhash : ∀ c ∈ l, c ≠ '#' := ne_of_inert l hall '#' (by decide)
  have hgt : ∀ c ∈ l, c ≠ '>' := ne_of_inert l hall '>' (by decide)
  have hbang : ∀ c ∈ l, c ≠ '!' := ne_of_inert l hall '!' (by decide)
  have hbr : ∀ c ∈ l, c ≠ '[' := ne_of_inert l hall '[' (by decide)
  have htick : ∀ c ∈ l, c ≠ backquote := ne_of_inert l hall backquote (by decide)
  have hminus : ∀ c ∈ l, c ≠ '-' := ne_of_inert l hall '-' (by decide)
  have hplus : ∀ c ∈ l, c ≠ '+' := ne_of_inert l hall '+' (by decide)
  have heq : ∀ c ∈ l, c ≠ '=' := ne_of_inert l hall '=' (by decide)
  have hbul : ∀ c ∈ l, c ≠ '-' ∧ c ≠ '*' ∧ c ≠ '+' :=
    fun c hc => ⟨hminus c hc, hstar c hc, hplus c hc⟩
  simp only [cmList]
  rw [pairAux_id '*' _ l hstar, pairAux_id '_' _ l hund, singleAux_id '*' _ l hstar,
    singleAux_id '_' _ l hund, hdrAux_id _ true l hhash, quoteAux_id _ true l hgt,
    bangAux_id _ l hbang, linkAux_id _ l hbr, tickAux_id _ l htick,
    List.filter_eq_self.mpr (fun a ha => decide_eq_true (htick a ha)),
    bulletAux_id _ true l hbul, hrAux_id '-' _ true l hminus, hrAux_id '=' _ true l heq,
    wsAux_id _ l htwo, trimWs_id l hhd hlast]

/-- C9: for every falsy or non-string value, cleanMarkdown returns its
argument unchanged (the guard short-circuits before any replacement, and
the embedding is a total function, so no exception arises). -/
theorem cleanMarkdown_guard_passthrough (v : JsValue)
    (h : truthy v = false ∨ isStr v = false) : cleanMarkdownJs v = v := by
  rcases h with h | h <;> simp [cleanMarkdownJs, h]

theorem cleanMarkdown_guard_witness :
    (truthy JsValue.jsNull = false ∨ isStr JsValue.jsNull = false) ∧
    cleanMarkdownJs JsValue.jsNull = JsValue.jsNull :=
  ⟨Or.inl rfl, cleanMarkdown_guard_passthrough JsValue.jsNull (Or.inl rfl)⟩

set_option maxHeartbeats 2000000 in
/-- C10, counterexample: cleanMarkdown is not idempotent.  On the input
consisting of space, hash, space, letter a, the first pass only trims the
leading space (the header rule needs the hash at the line start), and the
second pass then strips the header marker. -/
theorem cleanMarkdown_not_idempotent_example :
    cleanMarkdownS (cleanMarkdownS " # a") ≠ cleanMarkdownS " # a" := by decide

/-- C10, amended: cleanMarkdown is idempotent on plain strings — strings
with no markdown marker characters and no whitespace beyond single
interior spaces — because it leaves them unchanged. -/
theorem cleanMarkdown_idempotent_on_plain (s : String) (h : plainList s.data = true) :
    cleanMarkdownS (cleanMarkdownS s) = cleanMarkdownS s := by
  simp only [cleanMarkdownS]
  rw [cmList_fixed s.data h, cmList_fixed s.data h]

theorem cleanMarkdown_idempotent_plain_witness :
    plainList ("hello world".data) = true ∧
    cleanMarkdownS (cleanMarkdownS "hello world") = cleanMarkdownS "hello world" :=
  ⟨by decide, cleanMarkdown_idempotent_on_plain "hello world" (by decide)⟩

/-- Sequencing stops at the first error: when some element fails, the
whole traversal fails. -/
theorem seqE_error {α β : Type} (f : α → Except PipeError β) :
    ∀ l : List α, (∃ a ∈ l, ∃ e, f a = Except.error e) →
      ∃ e2, seqE f l = Except.error e2 := by
  intro l
  induction l with
  | nil => rintro ⟨a, ha, _⟩; cases ha
  | cons a rest ih =>
    rintro ⟨a0, ha0, e, he⟩
    cases hfa : f a with
    | error e1 => exact ⟨e1, by simp [seqE, hfa]⟩
    | ok b =>
      rcases List.mem_cons.mp ha0 with h | h
      · subst h; rw [hfa] at he; cases he
      · obtain ⟨e2, h2⟩ := ih ⟨a0, h, e, he⟩
        exact ⟨e2, by simp [seqE, hfa, h2]⟩

/-- The persona chain of the source agrees with first-match-wins
evaluation of the ordered rule table. -/
theorem personaChain_eq_firstMatch (rc : RuleConfig) (c : List ℚ) :
    personaChain rc c = firstMatchLabel rc c := by
  unfold personaChain firstMatchLabel ruleTable
  by_cases hA : rc.savingsHigh < fSavings c <;>
    by_cases hB : rc.savingsMid < fSavings c <;>
      by_cases hC : fDisc c < rc.discLow <;>
        by_cases hD : rc.incomeHigh < fIncome c <;>
          by_cases hE : rc.discHigh < fDisc c <;>
            simp [hA, hB, hC, hD, hE, List.find?]

/-- Casting a rational list sum to the reals commutes with summation. -/
theorem listSum_cast (l : List ℚ) :
    ((l.sum : ℚ) : ℝ) = (l.map (Rat.cast : ℚ → ℝ)).sum := by
  induction l with
  | nil => simp
  | cons a t ih => simp [ih]

/-- The rational mean cast to the reals is the real mean. -/
theorem mean_cast (l : List ℚ) : ((mean l : ℚ) : ℝ) = meanR l := by
  unfold mean meanR
  rw [Rat.cast_div, listSum_cast, Rat.cast_natCast]

/-- The rational population variance cast to the reals is the real
population variance. -/
theorem popVariance_cast (l : List ℚ) : ((popVariance l : ℚ) : ℝ) = popVarR l := by
  unfold popVariance popVarR
  rw [Rat.cast_div, listSum_cast, Rat.cast_natCast]
  simp only [List.map_map]
  congr 1
  congr 1
  refine List.map_congr_left ?_
  intro x _
  have hm : ((mean l : ℚ) : ℝ) = meanR l := mean_cast l
  simp only [Function.comp_apply]
  push_cast [hm]
  ring

/-- C1: for every customer whose average monthly income is nonpositive,
the Feature Extractor reports the savings rate as the null sentinel,
never as a division result. -/
theorem savings_null_of_nonpos_income (txs : List Tx)
    (h : avgMonthlyIncome txs ≤ 0) : (extract txs).savingsRate = none := by
  simp [extract, h]

theorem savings_null_witness :
    avgMonthlyIncome exIncomeless ≤ 0 ∧ (extract exIncomeless).savingsRate = none :=
  ⟨by decide, savings_null_of_nonpos_income exIncomeless (by decide)⟩

/-- C2: the pipeline is deterministic — equal transaction inputs give
equal feature vectors, and equal populations under the same
configuration (with its fixed seed) give equal cluster assignments and
equal persona labels; in this pure embedding determinism is structural,
since neither stage consults any state outside its arguments. -/
theorem pipeline_deterministic (txs txs2 : List Tx) (cfg : SegConfig)
    (pop pop2 : List (List ℚ)) (h1 : txs = txs2) (h2 : pop = pop2) :
    extract txs = extract txs2 ∧
    (segment cfg pop).map SegResult.assignments =
      (segment cfg pop2).map SegResult.assignments ∧
    (segment cfg pop).map SegResult.personas =
      (segment cfg pop2).map SegResult.personas := by
  subst h1; subst h2; exact ⟨rfl, rfl, rfl⟩

theorem pipeline_deterministic_witness :
    extract exSaver = extract exSaver ∧
    (segment cfgW2 popW).map SegResult.assignments =
      (segment cfgW2 popW).map SegResult.assignments ∧
    (segment cfgW2 popW).map SegResult.personas =
      (segment cfgW2 popW).map SegResult.personas :=
  pipeline_deterministic exSaver exSaver cfgW2 popW popW rfl rfl

/-- C3: a population with fewer customers than the configured cluster
count fails with the insufficient-data error. -/
theorem segment_insufficient_of_small (cfg : SegConfig) (pop : List (List ℚ))
    (h : pop.length < cfg.k) : segment cfg pop = .error .insufficientData := by
  simp [segment, h]

theorem segment_insufficient_witness :
    [[(0 : ℚ)]].length < cfgW2.k ∧
    segment cfgW2 [[(0 : ℚ)]] = .error .insufficientData :=
  ⟨by decide, segment_insufficient_of_small cfgW2 [[(0 : ℚ)]] (by decide)⟩

/-- C4, counterexample: a population of two identical feature vectors
under the default five-cluster configuration is all-identical, yet the
Segmenter does not fail with the degenerate-input error — the
insufficient-data check fires first. -/
theorem degenerate_claim_counterexample :
    allIdentical [[(1 : ℚ)], [1]] = true ∧
    segment cfgW5 [[(1 : ℚ)], [1]] ≠ Except.error PipeError.degenerateInput := by
  decide

/-- C4, amended: a population of at least the configured cluster count
whose feature vectors are all identical fails with the degenerate-input
error. -/
theorem degenerate_of_enough_identical (cfg : SegConfig) (pop : List (List ℚ))
    (hk : cfg.k ≤ pop.length) (hid : allIdentical pop = true) :
    segment cfg pop = .error .degenerateInput := by
  have hn : ¬ pop.length < cfg.k := Nat.not_lt.mpr hk
  simp [segment, hn, hid]

theorem degenerate_of_enough_identical_witness :
    cfgW1.k ≤ [[(1 : ℚ)]].length ∧ allIdentical [[(1 : ℚ)]] = true ∧
    segment cfgW1 [[(1 : ℚ)]] = .error .degenerateInput :=
  ⟨by decide, by decide,
    degenerate_of_enough_identical cfgW1 [[(1 : ℚ)]] (by decide) (by decide)⟩

/-- C5: a customer with fewer than two distinct months has volatility
reported as the null sentinel, and a customer with at least two months
has volatility equal to the population standard deviation of monthly
total spend divided by the mean monthly spend. -/
theorem volatility_months_rule (txs : List Tx) :
    ((monthsOf txs).length < 2 → (extract txs).volatility = none) ∧
    (2 ≤ (monthsOf txs).length →
      (extract txs).volatility =
        some (popStdDev (monthlyNetSpends txs) / meanR (monthlyNetSpends txs))) := by
  constructor
  · intro h; simp [extract, h]
  · intro h
    have hn : ¬ (monthsOf txs).length < 2 := Nat.not_lt.mpr h
    simp [extract, hn, popStdDev, popVariance_cast, mean_cast]

theorem volatility_months_witness :
    2 ≤ (monthsOf exTwoMonths).length ∧
    (extract exTwoMonths).volatility =
      some (popStdDev (monthlyNetSpends exTwoMonths) /
        meanR (monthlyNetSpends exTwoMonths)) :=
  ⟨by decide, (volatility_months_rule exTwoMonths).2 (by decide)⟩

/-- C6: on every successful run, the persona label attached to each
fitted centroid is the label of the first matching rule of the ordered
rule table, with the default label when no rule matches. -/
theorem personas_follow_rule_table (cfg : SegConfig) (pop : List (List ℚ))
    (res : SegResult) (h : segment cfg pop = .ok res) :
    res.personas = res.centroids.map (firstMatchLabel cfg.rules) := by
  unfold segment at h
  split_ifs at h
  injection h with h3
  subst h3
  have hfun : personaChain cfg.rules = firstMatchLabel cfg.rules :=
    funext (personaChain_eq_firstMatch cfg.rules)
  simp [fit, hfun]

theorem personas_follow_rule_table_witness :
    segment cfgW1 popW = Except.ok (fit cfgW1 popW) ∧
    (fit cfgW1 popW).personas =
      (fit cfgW1 popW).centroids.map (firstMatchLabel cfgW1.rules) :=
  ⟨by decide, personas_follow_rule_table cfgW1 popW (fit cfgW1 popW) (by decide)⟩

/-- C7: whenever any stage fails, the run returns an error and no cluster
assignments at all; in this pure embedding a run has no side effects, so
aborting is returning the error value. -/
theorem pipeline_atomic_on_failure (cfg : SegConfig) (css : List (List RawTx))
    (h : stageFails cfg css) :
    (∃ e, pipeline cfg css = Except.error e) ∧
    ∀ res, pipeline cfg css ≠ Except.ok res := by
  have hmain : ∃ e, pipeline cfg css = Except.error e := by
    rcases h with ⟨c, hc, e, he⟩ | ⟨vs, hok, e, hseg⟩
    · obtain ⟨e2, h2⟩ := seqE_error extractE css ⟨c, hc, e, he⟩
      exact ⟨e2, by simp [pipeline, h2]⟩
    · exact ⟨e, by simp [pipeline, hok, hseg]⟩
  refine ⟨hmain, ?_⟩
  intro res hres
  obtain ⟨e, he⟩ := hmain
  rw [he] at hres
  cases hres

theorem pipeline_atomic_witness :
    stageFails cfgW2 cssBadDate ∧ ∃ e, pipeline cfgW2 cssBadDate = Except.error e := by
  have hsf : stageFails cfgW2 cssBadDate :=
    Or.inl ⟨[{ month := none, amount := some 1, category := "essential" }],
      by simp [cssBadDate], PipeError.invalidData, rfl⟩
  exact ⟨hsf, (pipeline_atomic_on_failure cfgW2 cssBadDate hsf).1⟩

/-- C8, counterexample: a customer whose refund in a spend category
exceeds the month's spending has negative net spend, and the reported
savings rate 3/2 exceeds 1. -/
theorem savings_rate_above_one_example :
    (extract exRefund).savingsRate = some (3 / 2) ∧ ¬ ((3 : ℚ) / 2 ≤ 1) := by
  decide

/-- C8, amended: whenever the savings rate is defined and the average
monthly net spend is nonnegative (refunds do not exceed spending), the
savings rate is at most one. -/
theorem savings_rate_le_one_of_spend_nonneg (txs : List Tx) (r : ℚ)
    (h : (extract txs).savingsRate = some r) (hs : 0 ≤ avgMonthlySpend txs) :
    r ≤ 1 := by
  by_cases h0 : avgMonthlyIncome txs ≤ 0
  · simp [extract, h0] at h
  · simp [extract, h0] at h
    have hpos : 0 < avgMonthlyIncome txs := not_le.mp h0
    rw [← h, div_le_one hpos]
    linarith

theorem savings_rate_le_one_witness :
    (extract exSaver).savingsRate = some (3 / 5) ∧
    0 ≤ avgMonthlySpend exSaver ∧ ((3 : ℚ) / 5 ≤ 1) :=
  ⟨by decide, by decide,
    savings_rate_le_one_of_spend_nonneg exSaver (3 / 5) (by decide) (by decide)⟩

end Finova
